import Mathlib

/-
Verification development for the vendor-rates reconciliation service.

Python values are shallowly embedded:
  * Python `str` is modelled as `List Char` (`PyStr`); `.upper()/.lower()`
    map `Char.toUpper`/`Char.toLower`, `in` is substring containment,
    `startswith` is `List.isPrefixOf`.
  * numeric rates (`float` used only for comparison and copying) are `ℚ`;
  * dicts used as records become structures; dicts used as maps become
    functions to `Option`;
  * Python `max(xs, key=f)` (first-seen wins on ties) is `pyMaxBy`;
  * `datetime.now()` is an explicit rational-number time parameter.
-/

/-- A Python string, modelled as its list of characters. -/
abbrev PyStr : Type := List Char

/-- Python whitespace recognised by `str.strip()` (ASCII subset). -/
def pyIsSpace (c : Char) : Bool :=
  c == ' ' || c == '\t' || c == '\n' || c == '\r' || c == '\x0b' || c == '\x0c'

/-- `re.split` with a character class: split a string at every character
satisfying `p`, keeping empty parts (as Python's `re.split` does). -/
def splitOnSeps (p : Char → Bool) : List Char → List (List Char)
  | [] => [[]]
  | c :: rest =>
    if p c then [] :: splitOnSeps p rest
    else
      match splitOnSeps p rest with
      | [] => [[c]]
      | t :: ts => (c :: t) :: ts

/-- Python `str.strip()` on the left: drop leading whitespace. -/
def pyStripLeft (l : PyStr) : PyStr := l.dropWhile pyIsSpace

/-- Python `str.strip()` on the right: drop trailing whitespace. -/
def pyStripRight (l : PyStr) : PyStr := (l.reverse.dropWhile pyIsSpace).reverse

/-- Python `str.strip()`. -/
def pyStrip (l : PyStr) : PyStr := pyStripRight (pyStripLeft l)

/-- The separator class `[;-]` of `OBRService._parse_and_split_dial_codes`. -/
def isDialSep (c : Char) : Bool := c == ';' || c == '-'

/-- `OBRService._parse_and_split_dial_codes` (obr_service.py:32-45):
`re.split` on the class `[;-]`, strip each part, drop empty parts. -/
def parseAndSplitDialCodes (s : PyStr) : List PyStr :=
  ((splitOnSeps isDialSep s).map pyStrip).filter (fun t => !t.isEmpty)

theorem splitOnSeps_ne_nil (p : Char → Bool) (l : List Char) :
    splitOnSeps p l ≠ [] := by
  induction l with
  | nil => simp [splitOnSeps]
  | cons c rest ih =>
    simp only [splitOnSeps]
    by_cases h : p c
    · simp [h]
    · simp only [h]
      cases hs : splitOnSeps p rest with
      | nil => simp
      | cons t ts => simp

theorem splitOnSeps_append_sep (p : Char → Bool) {c : Char} (hc : p c = true)
    (l₁ l₂ : List Char) :
    splitOnSeps p (l₁ ++ c :: l₂) = splitOnSeps p l₁ ++ splitOnSeps p l₂ := by
  induction l₁ with
  | nil => simp [splitOnSeps, hc]
  | cons a l₁ ih =>
    by_cases ha : p a
    · simp [splitOnSeps, ha, ih]
    · simp only [List.cons_append, splitOnSeps, ha, Bool.false_eq_true, if_false,
        List.append_eq]
      rw [ih]
      cases hs : splitOnSeps p l₁ with
      | nil => exact absurd hs (splitOnSeps_ne_nil p l₁)
      | cons t ts => simp

theorem head?_dropWhile_not (p : α → Bool) (l : List α) {c : α}
    (h : (l.dropWhile p).head? = some c) : p c = false := by
  induction l with
  | nil => simp [List.dropWhile] at h
  | cons a rest ih =>
    by_cases ha : p a
    · exact ih (by simpa [List.dropWhile, ha] using h)
    · simp only [List.dropWhile, ha, Bool.false_eq_true, if_false, List.head?] at h
      cases h
      simpa using ha

theorem getLast?_dropWhile_eq (p : α → Bool) (l : List α)
    (h : l.dropWhile p ≠ []) : (l.dropWhile p).getLast? = l.getLast? := by
  induction l with
  | nil => simp [List.dropWhile] at h
  | cons a rest ih =>
    by_cases ha : p a
    · have h' : rest.dropWhile p ≠ [] := by
        simpa [List.dropWhile, ha] using h
      have hr : rest ≠ [] := by
        intro hnil; rw [hnil] at h'; simp [List.dropWhile] at h'
      rw [List.dropWhile_cons_of_pos ha, ih h']
      cases rest with
      | nil => exact absurd rfl hr
      | cons b rs => rw [List.getLast?_cons_cons]
    · rw [List.dropWhile_cons_of_neg ha]

theorem pyStrip_head_not_space (u : PyStr) {c : Char}
    (h : (pyStrip u).head? = some c) : pyIsSpace c = false := by
  unfold pyStrip pyStripRight pyStripLeft at h
  rw [List.head?_reverse] at h
  have hne : (u.dropWhile pyIsSpace).reverse.dropWhile pyIsSpace ≠ [] := by
    intro hnil; rw [hnil] at h; simp at h
  rw [getLast?_dropWhile_eq _ _ hne, List.getLast?_reverse] at h
  exact head?_dropWhile_not _ _ h

theorem pyStrip_getLast_not_space (u : PyStr) {c : Char}
    (h : (pyStrip u).getLast? = some c) : pyIsSpace c = false := by
  unfold pyStrip pyStripRight pyStripLeft at h
  rw [List.getLast?_reverse] at h
  exact head?_dropWhile_not _ _ h

/-- C2: `_parse_and_split_dial_codes` treats `;` and `-` as equivalent simple
separators (splitting at either separator splits the token stream, with no
numeric range expansion), trims whitespace from each token and drops empty
tokens; `"31;33-35"` yields exactly `["31", "33", "35"]` in that order, and
every returned token is non-empty with no leading or trailing whitespace. -/
theorem C2_parse_and_split_dial_codes :
    parseAndSplitDialCodes ( "31;33-35".toList )
      = [ "31".toList, "33".toList, "35".toList ]
    ∧ (∀ s₁ s₂ : PyStr, parseAndSplitDialCodes (s₁ ++ ';' :: s₂)
        = parseAndSplitDialCodes s₁ ++ parseAndSplitDialCodes s₂)
    ∧ (∀ s₁ s₂ : PyStr, parseAndSplitDialCodes (s₁ ++ '-' :: s₂)
        = parseAndSplitDialCodes s₁ ++ parseAndSplitDialCodes s₂)
    ∧ (∀ s : PyStr, ∀ t ∈ parseAndSplitDialCodes s,
        t ≠ []
        ∧ (∀ c, t.head? = some c → pyIsSpace c = false)
        ∧ (∀ c, t.getLast? = some c → pyIsSpace c = false)) := by
  refine ⟨by decide, ?_, ?_, ?_⟩
  · intro s₁ s₂
    unfold parseAndSplitDialCodes
    rw [splitOnSeps_append_sep isDialSep (by decide) s₁ s₂, List.map_append,
      List.filter_append]
  · intro s₁ s₂
    unfold parseAndSplitDialCodes
    rw [splitOnSeps_append_sep isDialSep (by decide) s₁ s₂, List.map_append,
      List.filter_append]
  · intro s t ht
    unfold parseAndSplitDialCodes at ht
    rw [List.mem_filter] at ht
    obtain ⟨hmem, hne⟩ := ht
    rw [List.mem_map] at hmem
    obtain ⟨u, _, hu⟩ := hmem
    subst hu
    refine ⟨by simpa using hne, ?_, ?_⟩
    · intro c hc; exact pyStrip_head_not_space u hc
    · intro c hc; exact pyStrip_getLast_not_space u hc

/-- Python `str.upper()` (ASCII relevant here). -/
def pyUpper (s : PyStr) : PyStr := s.map Char.toUpper

/-- Python `str.lower()` (ASCII relevant here). -/
def pyLower (s : PyStr) : PyStr := s.map Char.toLower

/-- Python substring containment `needle in hay`. -/
def pyIn (needle : PyStr) : PyStr → Bool
  | [] => needle.isPrefixOf []
  | c :: rest => needle.isPrefixOf (c :: rest) || pyIn needle rest

/-- Python `max(x :: xs, key=f)`: fold keeping the current champion unless a
later element is strictly greater, so the first element attaining the
maximum wins. -/
def pyMaxBy (f : α → ℚ) (x : α) (xs : List α) : α :=
  xs.foldl (fun acc y => if f acc < f y then y else acc) x

theorem pyMaxBy_spec (f : α → ℚ) (x : α) (xs : List α) :
    ∃ l₁ l₂, x :: xs = l₁ ++ pyMaxBy f x xs :: l₂
      ∧ (∀ y ∈ l₁, f y < f (pyMaxBy f x xs))
      ∧ (∀ y ∈ l₂, f y ≤ f (pyMaxBy f x xs)) := by
  induction xs generalizing x with
  | nil => exact ⟨[], [], rfl, by simp, by simp⟩
  | cons y ys ih =>
    have hstep : pyMaxBy f x (y :: ys)
        = pyMaxBy f (if f x < f y then y else x) ys := rfl
    by_cases hxy : f x < f y
    · rw [hstep, if_pos hxy]
      obtain ⟨l₁, l₂, heq, h₁, h₂⟩ := ih y
      have hy_le : f y ≤ f (pyMaxBy f y ys) := by
        cases l₁ with
        | nil =>
          rw [List.nil_append] at heq
          injection heq with hm _
          rw [← hm]
        | cons a l₁ =>
          rw [List.cons_append] at heq
          injection heq with hm _
          exact le_of_lt (hm ▸ h₁ a (List.mem_cons_self a l₁))
      refine ⟨x :: l₁, l₂, ?_, ?_, h₂⟩
      · rw [List.cons_append, ← heq]
      · intro z hz
        rcases List.mem_cons.mp hz with hz | hz
        · subst hz; exact lt_of_lt_of_le hxy hy_le
        · exact h₁ z hz
    · rw [hstep, if_neg hxy]
      obtain ⟨l₁, l₂, heq, h₁, h₂⟩ := ih x
      cases l₁ with
      | nil =>
        rw [List.nil_append] at heq
        injection heq with hm hl
        refine ⟨[], y :: l₂, ?_, by simp, ?_⟩
        · rw [List.nil_append, ← hm, hl]
        · intro z hz
          rcases List.mem_cons.mp hz with hz | hz
          · subst hz
            exact (le_of_not_lt hxy).trans (le_of_eq (congrArg f hm))
          · exact h₂ z hz
      | cons a l₁ =>
        rw [List.cons_append] at heq
        injection heq with ha hrest
        have hx_lt : f x < f (pyMaxBy f x ys) :=
          ha ▸ h₁ a (List.mem_cons_self a l₁)
        refine ⟨x :: y :: l₁, l₂, ?_, ?_, h₂⟩
        · rw [List.cons_append, List.cons_append, ← hrest]
        · intro z hz
          rcases List.mem_cons.mp hz with hz | hz
          · subst hz; exact hx_lt
          · rcases List.mem_cons.mp hz with hz | hz
            · subst hz; exact lt_of_le_of_lt (le_of_not_lt hxy) hx_lt
            · exact h₁ z (List.mem_cons_of_mem a hz)

theorem pyMaxBy_mem (f : α → ℚ) (x : α) (xs : List α) :
    pyMaxBy f x xs ∈ x :: xs := by
  obtain ⟨l₁, l₂, heq, _, _⟩ := pyMaxBy_spec f x xs
  rw [heq]
  exact List.mem_append_right l₁ (List.mem_cons_self _ _)

theorem pyMaxBy_le (f : α → ℚ) (x : α) (xs : List α) :
    ∀ y ∈ x :: xs, f y ≤ f (pyMaxBy f x xs) := by
  obtain ⟨l₁, l₂, heq, h₁, h₂⟩ := pyMaxBy_spec f x xs
  intro y hy
  rw [heq] at hy
  rcases List.mem_append.mp hy with hy | hy
  · exact le_of_lt (h₁ y hy)
  · rcases List.mem_cons.mp hy with hy | hy
    · rw [hy]
    · exact h₂ y hy

/-- One OBR master-data record (the fields read by the comparisons). -/
structure OBRMaster where
  vendor : PyStr
  origin_code : PyStr
  destiny_code : PyStr
  destiny : PyStr
  routing : PyStr
  origin : PyStr
deriving DecidableEq

/-- One Belgacom price-list row. -/
structure BgPriceRow where
  destinations : PyStr
  country_code : PyStr
  area_code : PyStr
  country_area : PyStr
  price_min : ℚ
  start_date : PyStr
deriving DecidableEq

/-- One Belgacom A-number pricing row. -/
structure BgAnumberRow where
  origin : PyStr
  reference_destinations : PyStr
  price_min : ℚ
  start_date : PyStr
deriving DecidableEq

/-- One row of the list sent to the CSV generator (the seven-key dicts the
obr_service comparison methods build). -/
structure CsvRecord where
  destinations : PyStr
  country_code : PyStr
  area_code : PyStr
  country_area : PyStr
  price_min : ℚ
  start_date : PyStr
  origin_name : PyStr
deriving DecidableEq

/-- The hard-coded Belgacom special condition: routing "traffic from eu"
(case-insensitively), destiny code "39", origin code "376" and a price row
whose destination is "italy mobile tim" (case-insensitively). -/
def belgacomSpecialCase (routing destiny_code origin_code destinations : PyStr) : Bool :=
  pyLower routing == "traffic from eu".toList
  && destiny_code == "39".toList
  && origin_code == "376".toList
  && pyLower destinations == "italy mobile tim".toList

/-- The A-number rows feeding the Belgacom special case: origin starting
with "4" or "3" and reference destination "italy mobile tim"
(case-insensitively). -/
def italyMobileMatching (anumber_pricing : List BgAnumberRow) : List BgAnumberRow :=
  anumber_pricing.filter (fun item =>
    (( "4".toList ).isPrefixOf item.origin || ( "3".toList ).isPrefixOf item.origin)
    && pyLower item.reference_destinations == "italy mobile tim".toList)

/-- Records emitted by `BelgacomComparisonStrategy.compare`
(comparison_strategies.py:100-156) for one master record and one matching
price row. -/
def belgacomStrategyRow (anumber_pricing items_with_same_origin : List BgAnumberRow)
    (routing destiny_code origin_code : PyStr) (price_item : BgPriceRow) :
    List CsvRecord :=
  if belgacomSpecialCase routing destiny_code origin_code price_item.destinations then
    match italyMobileMatching anumber_pricing with
    | [] => []
    | x :: xs =>
      let max_price_item := pyMaxBy (fun a => a.price_min) x xs
      [{ destinations := price_item.destinations
         country_code := price_item.country_code
         area_code := price_item.area_code
         country_area := price_item.country_area
         price_min := max_price_item.price_min
         start_date := max_price_item.start_date
         origin_name := routing }]
  else
    match items_with_same_origin.find? (fun item =>
        item.reference_destinations == price_item.destinations
        && item.origin == origin_code) with
    | some matching_item =>
      [{ destinations := price_item.destinations
         country_code := price_item.country_code
         area_code := price_item.area_code
         country_area := price_item.country_area
         price_min := matching_item.price_min
         start_date := matching_item.start_date
         origin_name := routing }]
    | none =>
      [{ destinations := price_item.destinations
         country_code := price_item.country_code
         area_code := price_item.area_code
         country_area := price_item.country_area
         price_min := price_item.price_min
         start_date := price_item.start_date
         origin_name := routing }]

/-- `BelgacomComparisonStrategy.compare` (comparison_strategies.py:71-175):
matched pass over the master records it was given (the caller filters by
vendor), then a final pass over all price rows except `country_area`
"88237", with empty origin label. -/
def belgacomStrategyCompare (price_list : List BgPriceRow)
    (anumber_pricing : List BgAnumberRow) (obr_master : List OBRMaster) :
    List CsvRecord :=
  (obr_master.flatMap (fun vendor =>
    let price_list_destinations :=
      price_list.filter (fun item => item.country_code == vendor.destiny_code)
    let items_with_same_origin := anumber_pricing.filter (fun item =>
      pyIn (pyUpper vendor.destiny) (pyUpper item.reference_destinations)
      && item.origin == vendor.origin_code)
    price_list_destinations.flatMap
      (belgacomStrategyRow anumber_pricing items_with_same_origin
        vendor.routing vendor.destiny_code vendor.origin_code)))
  ++ price_list.filterMap (fun price_item =>
    if price_item.country_area == "88237".toList then none
    else some
      { destinations := price_item.destinations
        country_code := price_item.country_code
        area_code := price_item.area_code
        country_area := price_item.country_area
        price_min := price_item.price_min
        start_date := price_item.start_date
        origin_name := [] })

/-- The `anumber_index` dict of `OBRService._compare_belgacom_data`: keyed by
`(origin, reference_destinations)`, built by insertion in list order so a
later row overwrites an earlier one with the same key. -/
def anumberIndexGet (anumber_pricing : List BgAnumberRow)
    (origin destinations : PyStr) : Option BgAnumberRow :=
  (anumber_pricing.filter (fun item =>
    item.origin == origin && item.reference_destinations == destinations)).getLast?

/-- The pre-computed `italy_mobile_max` of `_compare_belgacom_data`
(obr_service.py:698-704). -/
def italyMobileMax (anumber_pricing : List BgAnumberRow) : Option BgAnumberRow :=
  match italyMobileMatching anumber_pricing with
  | [] => none
  | x :: xs => some (pyMaxBy (fun a => a.price_min) x xs)

/-- Records emitted by `OBRService._compare_belgacom_data`
(obr_service.py:726-779) for one master record and one matching price row:
the special case uses the pre-computed maximum; the normal case looks the
row up in `anumber_index` first and falls back to `items_with_same_origin`. -/
def belgacomServiceRow (anumber_pricing items_with_same_origin : List BgAnumberRow)
    (italy_mobile_max : Option BgAnumberRow)
    (routing destiny_code origin_code : PyStr) (price_item : BgPriceRow) :
    List CsvRecord :=
  if belgacomSpecialCase routing destiny_code origin_code price_item.destinations then
    match italy_mobile_max with
    | none => []
    | some m =>
      [{ destinations := price_item.destinations
         country_code := price_item.country_code
         area_code := price_item.area_code
         country_area := price_item.country_area
         price_min := m.price_min
         start_date := m.start_date
         origin_name := routing }]
  else
    let primary := anumberIndexGet anumber_pricing origin_code price_item.destinations
    let matching_item :=
      match primary with
      | some m => some m
      | none => items_with_same_origin.find? (fun item =>
          item.reference_destinations == price_item.destinations)
    match matching_item with
    | some m =>
      [{ destinations := price_item.destinations
         country_code := price_item.country_code
         area_code := price_item.area_code
         country_area := price_item.country_area
         price_min := m.price_min
         start_date := m.start_date
         origin_name := routing }]
    | none =>
      [{ destinations := price_item.destinations
         country_code := price_item.country_code
         area_code := price_item.area_code
         country_area := price_item.country_area
         price_min := price_item.price_min
         start_date := price_item.start_date
         origin_name := routing }]

/-- `OBRService._compare_belgacom_data` (obr_service.py:659-794): filters the
master data to vendor "BELGACOM PLATINUM", runs the matched pass with the
indexed lookups, then appends every price row (no "88237" exception) with
empty origin label.  The per-code dict index preserves insertion order, so
`price_list_index.get(code, [])` is `price_list.filter (country_code == code)`. -/
def compareBelgacomData (price_list : List BgPriceRow)
    (anumber_pricing : List BgAnumberRow) (obr_master_data : List OBRMaster) :
    List CsvRecord :=
  let belgacom_master_data := obr_master_data.filter (fun item =>
    pyUpper item.vendor == "BELGACOM PLATINUM".toList)
  let italy_mobile_max := italyMobileMax anumber_pricing
  (belgacom_master_data.flatMap (fun vendor =>
    let price_list_destinations :=
      price_list.filter (fun item => item.country_code == vendor.destiny_code)
    let items_with_same_origin := anumber_pricing.filter (fun item =>
      pyIn (pyUpper vendor.destiny) (pyUpper item.reference_destinations)
      && item.origin == vendor.origin_code)
    price_list_destinations.flatMap
      (belgacomServiceRow anumber_pricing items_with_same_origin italy_mobile_max
        vendor.routing vendor.destiny_code vendor.origin_code)))
  ++ price_list.map (fun price_item =>
    { destinations := price_item.destinations
      country_code := price_item.country_code
      area_code := price_item.area_code
      country_area := price_item.country_area
      price_min := price_item.price_min
      start_date := price_item.start_date
      origin_name := [] })

theorem flatMap_congr_mem {l : List α} {f g : α → List β}
    (h : ∀ a ∈ l, f a = g a) : l.flatMap f = l.flatMap g := by
  induction l with
  | nil => rfl
  | cons a l ih =>
    rw [List.flatMap_cons, List.flatMap_cons, h a (List.mem_cons_self a l),
      ih (fun b hb => h b (List.mem_cons_of_mem a hb))]

theorem filterMap_eq_map_mem {f : α → Option β} {g : α → β} {l : List α}
    (h : ∀ a ∈ l, f a = some (g a)) : l.filterMap f = l.map g := by
  induction l with
  | nil => rfl
  | cons a l ih =>
    rw [List.filterMap_cons, h a (List.mem_cons_self a l), List.map_cons,
      ih (fun b hb => h b (List.mem_cons_of_mem a hb))]

/-- What the Belgacom special case is required to emit, relative to the set
`matching` of qualifying A-number rows: nothing when `matching` is empty,
otherwise records whose price is the maximum `price_min` over `matching`
(so never the base price-list rate). -/
def emitsAnumberMax (out : List CsvRecord) (matching : List BgAnumberRow) : Prop :=
  (matching = [] → out = [])
  ∧ (matching ≠ [] → out ≠ [])
  ∧ ∀ r ∈ out, (∃ a ∈ matching, r.price_min = a.price_min)
      ∧ ∀ a ∈ matching, a.price_min ≤ r.price_min

/-- C1: for vendor family A (Belgacom), in both implementations, a master
record with routing "traffic from eu" (case-insensitively), destiny code
"39" and origin code "376", paired with a price row whose destination is
"italy mobile tim" (case-insensitively) and country code "39", emits in the
matched pass exactly the maximum `price_min` over the A-number rows whose
origin starts with "3" or "4" and whose reference destination is
"italy mobile tim" (case-insensitively) — never the base price-list rate —
and emits nothing when no such A-number row exists. -/
theorem C1_belgacom_italy_mobile_max
    (anumber_pricing items_with_same_origin : List BgAnumberRow)
    (routing destiny_code origin_code : PyStr) (price_item : BgPriceRow)
    (h1 : pyLower routing = "traffic from eu".toList)
    (h2 : destiny_code = "39".toList)
    (h3 : origin_code = "376".toList)
    (h4 : pyLower price_item.destinations = "italy mobile tim".toList)
    (_h5 : price_item.country_code = "39".toList) :
    emitsAnumberMax
      (belgacomStrategyRow anumber_pricing items_with_same_origin
        routing destiny_code origin_code price_item)
      (italyMobileMatching anumber_pricing)
    ∧ emitsAnumberMax
      (belgacomServiceRow anumber_pricing items_with_same_origin
        (italyMobileMax anumber_pricing)
        routing destiny_code origin_code price_item)
      (italyMobileMatching anumber_pricing) := by
  have hcond : belgacomSpecialCase routing destiny_code origin_code
      price_item.destinations = true := by
    unfold belgacomSpecialCase
    rw [h1, h2, h3, h4]
    simp
  constructor
  · unfold belgacomStrategyRow
    rw [if_pos hcond]
    cases hm : italyMobileMatching anumber_pricing with
    | nil => exact ⟨fun _ => rfl, fun h => absurd rfl h, by simp⟩
    | cons x xs =>
      refine ⟨fun h => absurd h (by simp), fun _ => by simp, ?_⟩
      intro r hr
      rw [List.mem_singleton] at hr
      subst hr
      refine ⟨⟨pyMaxBy (fun a => a.price_min) x xs, pyMaxBy_mem _ x xs, rfl⟩, ?_⟩
      intro a ha
      exact pyMaxBy_le (fun a => a.price_min) x xs a ha
  · unfold belgacomServiceRow
    rw [if_pos hcond]
    unfold italyMobileMax
    cases hm : italyMobileMatching anumber_pricing with
    | nil => exact ⟨fun _ => rfl, fun h => absurd rfl h, by simp⟩
    | cons x xs =>
      refine ⟨fun h => absurd h (by simp), fun _ => by simp, ?_⟩
      intro r hr
      rw [List.mem_singleton] at hr
      subst hr
      refine ⟨⟨pyMaxBy (fun a => a.price_min) x xs, pyMaxBy_mem _ x xs, rfl⟩, ?_⟩
      intro a ha
      exact pyMaxBy_le (fun a => a.price_min) x xs a ha

/-- Fixture: an A-number row whose origin "376" starts with "3" and whose
reference destination is "Italy Mobile Tim". -/
def bgAnumEx1 : BgAnumberRow :=
  { origin := "376".toList
    reference_destinations := "Italy Mobile Tim".toList
    price_min := 2
    start_date := "2024-01-01".toList }

/-- Fixture: an A-number row whose origin "44" starts with "4", with the
highest rate. -/
def bgAnumEx2 : BgAnumberRow :=
  { origin := "44".toList
    reference_destinations := "italy mobile tim".toList
    price_min := 5
    start_date := "2024-02-01".toList }

/-- Fixture: the Italy Mobile Tim price row. -/
def bgPriceItalyTim : BgPriceRow :=
  { destinations := "Italy Mobile Tim".toList
    country_code := "39".toList
    area_code := []
    country_area := "39".toList
    price_min := 1
    start_date := "2024-01-02".toList }

theorem C1_belgacom_italy_mobile_max_witness :
    emitsAnumberMax
      (belgacomStrategyRow [bgAnumEx1, bgAnumEx2] []
        ( "Traffic From EU".toList ) ( "39".toList ) ( "376".toList ) bgPriceItalyTim)
      (italyMobileMatching [bgAnumEx1, bgAnumEx2])
    ∧ emitsAnumberMax
      (belgacomServiceRow [bgAnumEx1, bgAnumEx2] []
        (italyMobileMax [bgAnumEx1, bgAnumEx2])
        ( "Traffic From EU".toList ) ( "39".toList ) ( "376".toList ) bgPriceItalyTim)
      (italyMobileMatching [bgAnumEx1, bgAnumEx2]) :=
  C1_belgacom_italy_mobile_max [bgAnumEx1, bgAnumEx2] [] _ _ _ bgPriceItalyTim
    (by decide) (by decide) (by decide) (by decide) (by decide)

theorem belgacom_row_eq_of_empty_anumber (r dc oc : PyStr) (p : BgPriceRow) :
    belgacomStrategyRow [] [] r dc oc p
      = belgacomServiceRow [] [] none r dc oc p := by
  unfold belgacomStrategyRow belgacomServiceRow
  by_cases h : belgacomSpecialCase r dc oc p.destinations = true
  · rw [if_pos h, if_pos h]
    rfl
  · rw [if_neg h, if_neg h]
    rfl

/-- Fixture: a price row carrying the special country area "88237". -/
def bgPrice88237 : BgPriceRow :=
  { destinations := "Inmarsat".toList
    country_code := "88237".toList
    area_code := []
    country_area := "88237".toList
    price_min := 1
    start_date := "2024-01-01".toList }

/-- C9 counterexample: the two Belgacom implementations are not equivalent.
With no master records (vacuously all vendor "BELGACOM PLATINUM"), no
A-number rows, and a single price row whose `country_area` is "88237", the
strategy's final pass skips the row while the service version emits it. -/
theorem C9_belgacom_implementations_differ :
    belgacomStrategyCompare [bgPrice88237] [] []
      ≠ compareBelgacomData [bgPrice88237] [] [] := by decide

/-- C9 amended: the two Belgacom implementations agree only on restricted
inputs — here, when the A-number sheet is empty, every master row carries
vendor "BELGACOM PLATINUM" and no price row has `country_area` "88237" they
return the same record sequence.  In general they differ: the strategy skips
"88237" rows in the final pass, requires the destiny-substring condition on
the normal-case A-number match, and resolves duplicate matches first-wins,
while the service version appends every price row, matches through an index
that ignores the destiny-substring condition, and resolves duplicate
`(origin, reference_destinations)` keys last-wins. -/
theorem C9_belgacom_equiv_restricted (price_list : List BgPriceRow)
    (obr : List OBRMaster)
    (hv : ∀ v ∈ obr, pyUpper v.vendor = "BELGACOM PLATINUM".toList)
    (hp : ∀ p ∈ price_list, p.country_area ≠ "88237".toList) :
    belgacomStrategyCompare price_list [] obr
      = compareBelgacomData price_list [] obr := by
  unfold belgacomStrategyCompare compareBelgacomData
  have hfilter : obr.filter (fun item =>
      pyUpper item.vendor == "BELGACOM PLATINUM".toList) = obr := by
    rw [List.filter_eq_self]
    intro v hvm
    rw [hv v hvm]
    exact beq_self_eq_true _
  rw [hfilter]
  -- the matched passes are definitionally equal when `anumber_pricing = []`
  -- (`belgacom_row_eq_of_empty_anumber` row by row), so `congr` closes them
  congr 1
  apply filterMap_eq_map_mem
  intro p hpm
  rw [if_neg]
  simpa using hp p hpm

/-- Fixture: a master record for vendor Belgacom Platinum. -/
def obrMasterBelgacom : OBRMaster :=
  { vendor := "Belgacom Platinum".toList
    origin_code := "376".toList
    destiny_code := "39".toList
    destiny := "Italy".toList
    routing := "Traffic From EU".toList
    origin := "Andorra".toList }

theorem C9_belgacom_equiv_restricted_witness :
    belgacomStrategyCompare [bgPriceItalyTim] [] [obrMasterBelgacom]
      = compareBelgacomData [bgPriceItalyTim] [] [obrMasterBelgacom] :=
  C9_belgacom_equiv_restricted [bgPriceItalyTim] [obrMasterBelgacom]
    (by decide) (by decide)

/-- One price-list row of the generic two-sheet vendors. -/
structure TsPriceRow where
  origin : PyStr
  destination : PyStr
  rate : ℚ
deriving DecidableEq

/-- One origin-mapping row of the generic two-sheet vendors. -/
structure TsOriginRow where
  dialed_digit : PyStr
  origin_name : PyStr
deriving DecidableEq

/-- The three-key dicts the comparison_strategies module returns. -/
structure Csv3Record where
  destinations : PyStr
  country_code : PyStr
  price_min : ℚ
deriving DecidableEq

/-- One Oteglobe price-list row. -/
structure OtPriceRow where
  dial_code : PyStr
  destination : PyStr
  rate : ℚ
deriving DecidableEq

/-- One Oteglobe new-price row. -/
structure OtNewPriceRow where
  origin : PyStr
  destination : PyStr
  rate : ℚ
deriving DecidableEq

/-- One Oteglobe origins row. -/
structure OtOriginRow where
  origin : PyStr
  dial_code : PyStr
deriving DecidableEq

/-- One Apelby price-list row (`code` may hold several comma-separated codes). -/
structure ApPriceRow where
  code : PyStr
  destination : PyStr
  rate : ℚ
deriving DecidableEq

/-- One Apelby new-price row. -/
structure ApNewPriceRow where
  origin : PyStr
  destination : PyStr
  dial_code : PyStr
  rate : ℚ
deriving DecidableEq

/-- One Apelby origins row. -/
structure ApOriginRow where
  origin : PyStr
  origin_code : PyStr
deriving DecidableEq

/-- The `unique_codes` loop body shared by the strategies: append the record
only when its code has not been seen, and record the code as seen. -/
def dedupStep (st : List PyStr × List Csv3Record) (c : Csv3Record) :
    List PyStr × List Csv3Record :=
  if c.country_code ∈ st.1 then st
  else (c.country_code :: st.1, st.2 ++ [c])

/-- Running the `unique_codes` loop over a stream of candidate records.  The
candidate streams below do not read the seen-set, so the interleaved Python
loops are equivalent to folding over the flattened candidate list. -/
def dedupFoldFrom (st : List PyStr × List Csv3Record)
    (cands : List Csv3Record) : List PyStr × List Csv3Record :=
  cands.foldl dedupStep st

/-- Candidate records of `TwoSheetGenericComparisonStrategy.compare`
(comparison_strategies.py:197-241), in emission order, before the
`unique_codes` dedup. -/
def twoSheetCandidates (price_list : List TsPriceRow)
    (origin_mapping : List TsOriginRow) (obr_master : List OBRMaster) :
    List Csv3Record :=
  obr_master.flatMap (fun vendor =>
    let prices_filtered := price_list.filter
      (fun item => item.origin == vendor.origin)
    let origins_filtered := origin_mapping.filter
      (fun item => vendor.destiny_code.isPrefixOf item.dialed_digit)
    prices_filtered.flatMap (fun price_item =>
      (origins_filtered.filter
        (fun origin => origin.origin_name == price_item.origin)).map
        (fun origin =>
          { destinations := price_item.destination
            country_code := origin.dialed_digit
            price_min := price_item.rate })))

/-- `TwoSheetGenericComparisonStrategy.compare`: the candidate stream run
through the `unique_codes` dedup.  There is no fallback pass. -/
def twoSheetGenericCompare (price_list : List TsPriceRow)
    (origin_mapping : List TsOriginRow) (obr_master : List OBRMaster) :
    List Csv3Record :=
  (dedupFoldFrom ([], []) (twoSheetCandidates price_list origin_mapping obr_master)).2

/-- Candidate records of `OteglobeComparisonStrategy.compare`
(comparison_strategies.py:267-322), in emission order, before the
`unique_codes` dedup. -/
def oteglobeCandidates (price_list : List OtPriceRow)
    (new_price_list : List OtNewPriceRow) (origins : List OtOriginRow)
    (obr_master : List OBRMaster) : List Csv3Record :=
  obr_master.flatMap (fun vendor =>
    let prices_filtered := price_list.filter
      (fun item => vendor.destiny_code.isPrefixOf item.dial_code)
    let origins_filtered := origins.filter (fun item =>
      pyIn (pyUpper vendor.destiny) (pyUpper item.origin)
      && item.dial_code == vendor.origin_code)
    let available_new_prices := origins_filtered.flatMap (fun origin =>
      new_price_list.filter (fun np => np.origin == origin.origin))
    prices_filtered.map (fun item =>
      let new_price := available_new_prices.find?
        (fun np => np.destination == item.destination)
      { destinations := item.destination
        country_code := item.dial_code
        price_min := match new_price with
          | some np => np.rate
          | none => item.rate }))

/-- `OteglobeComparisonStrategy.compare`: the candidate stream run through
the `unique_codes` dedup.  There is no fallback pass. -/
def oteglobeCompare (price_list : List OtPriceRow)
    (new_price_list : List OtNewPriceRow) (origins : List OtOriginRow)
    (obr_master : List OBRMaster) : List Csv3Record :=
  (dedupFoldFrom ([], [])
    (oteglobeCandidates price_list new_price_list origins obr_master)).2

/-- Python `item["code"].split(",")` followed by `.strip()` on each part
(empty parts are kept, as `str.split` with an explicit separator keeps them). -/
def splitCommaStrip (s : PyStr) : List PyStr :=
  (splitOnSeps (fun c => c == ',') s).map pyStrip

/-- Candidate records of `ApelbyComparisonStrategy.compare`
(comparison_strategies.py:400-461), in emission order, before the
`unique_codes` dedup. -/
def apelbyCandidates (price_list : List ApPriceRow)
    (new_price_list : List ApNewPriceRow) (origins : List ApOriginRow)
    (obr_master : List OBRMaster) : List Csv3Record :=
  obr_master.flatMap (fun vendor =>
    let prices_filtered := price_list.flatMap (fun item =>
      ((splitCommaStrip item.code).filter
        (fun code => vendor.destiny_code.isPrefixOf code)).map
        (fun code => { item with code := code }))
    let origins_filtered := origins.filter (fun item =>
      pyIn (pyUpper vendor.destiny) (pyUpper item.origin)
      && item.origin_code == vendor.origin_code)
    let available_new_prices := origins_filtered.flatMap (fun origin =>
      new_price_list.filter (fun np => np.origin == origin.origin))
    prices_filtered.map (fun item =>
      let new_price := available_new_prices.find? (fun np =>
        np.destination == item.destination && np.dial_code == item.code)
      { destinations := item.destination
        country_code := item.code
        price_min := match new_price with
          | some np => np.rate
          | none => item.rate }))

/-- `ApelbyComparisonStrategy.compare`: the candidate stream run through the
`unique_codes` dedup.  There is no fallback pass. -/
def apelbyCompare (price_list : List ApPriceRow)
    (new_price_list : List ApNewPriceRow) (origins : List ApOriginRow)
    (obr_master : List OBRMaster) : List Csv3Record :=
  (dedupFoldFrom ([], [])
    (apelbyCandidates price_list new_price_list origins obr_master)).2

theorem dedupFoldFrom_inv (cands : List Csv3Record) :
    ∀ (seen : List PyStr) (out : List Csv3Record),
    (∀ r ∈ out, r.country_code ∈ seen) →
    (out.map (fun r => r.country_code)).Nodup →
    (∀ r ∈ (dedupFoldFrom (seen, out) cands).2,
        r.country_code ∈ (dedupFoldFrom (seen, out) cands).1)
    ∧ ((dedupFoldFrom (seen, out) cands).2.map (fun r => r.country_code)).Nodup := by
  induction cands with
  | nil => exact fun seen out hsub hnd => ⟨hsub, hnd⟩
  | cons c cs ih =>
    intro seen out hsub hnd
    have hfold : dedupFoldFrom (seen, out) (c :: cs)
        = dedupFoldFrom (dedupStep (seen, out) c) cs := rfl
    rw [hfold]
    unfold dedupStep
    by_cases hc : c.country_code ∈ seen
    · rw [if_pos hc]
      exact ih seen out hsub hnd
    · rw [if_neg hc]
      refine ih _ _ ?_ ?_
      · intro r hr
        rcases List.mem_append.mp hr with hr | hr
        · exact List.mem_cons_of_mem _ (hsub r hr)
        · rw [List.mem_singleton] at hr
          subst hr
          exact List.mem_cons_self _ _
      · rw [List.map_append, List.map_singleton]
        rw [List.nodup_append]
        refine ⟨hnd, List.nodup_singleton _, ?_⟩
        intro a ha hb
        rw [List.mem_singleton] at hb
        subst hb
        rw [List.mem_map] at ha
        obtain ⟨r, hr, hra⟩ := ha
        exact hc (hra ▸ hsub r hr)

theorem dedupFoldFrom_nodup (cands : List Csv3Record) :
    ((dedupFoldFrom ([], []) cands).2.map (fun r => r.country_code)).Nodup :=
  (dedupFoldFrom_inv cands [] [] (by simp) (by simp)).2

/-- C4: the outputs of the generic two-sheet strategy (vendor family B) and
of the Apelby strategy (vendor family C) carry pairwise-distinct
`country_code` values: no dial code appears in more than one record. -/
theorem C4_unique_dial_codes :
    (∀ (price_list : List TsPriceRow) (origin_mapping : List TsOriginRow)
        (obr_master : List OBRMaster),
      ((twoSheetGenericCompare price_list origin_mapping obr_master).map
        (fun r => r.country_code)).Nodup)
    ∧ (∀ (price_list : List ApPriceRow) (new_price_list : List ApNewPriceRow)
        (origins : List ApOriginRow) (obr_master : List OBRMaster),
      ((apelbyCompare price_list new_price_list origins obr_master).map
        (fun r => r.country_code)).Nodup) :=
  ⟨fun price_list origin_mapping obr_master =>
    dedupFoldFrom_nodup (twoSheetCandidates price_list origin_mapping obr_master),
   fun price_list new_price_list origins obr_master =>
    dedupFoldFrom_nodup (apelbyCandidates price_list new_price_list origins obr_master)⟩

theorem dedupFoldFrom_subset (cands : List Csv3Record) :
    ∀ (st : List PyStr × List Csv3Record), ∀ r ∈ (dedupFoldFrom st cands).2,
      r ∈ st.2 ∨ r ∈ cands := by
  induction cands with
  | nil => exact fun st r hr => Or.inl hr
  | cons c cs ih =>
    intro st r hr
    have hfold : dedupFoldFrom st (c :: cs)
        = dedupFoldFrom (dedupStep st c) cs := rfl
    rw [hfold] at hr
    rcases ih (dedupStep st c) r hr with h | h
    · unfold dedupStep at h
      by_cases hc : c.country_code ∈ st.1
      · rw [if_pos hc] at h
        exact Or.inl h
      · rw [if_neg hc] at h
        rcases List.mem_append.mp h with h | h
        · exact Or.inl h
        · rw [List.mem_singleton] at h
          exact Or.inr (by rw [h]; exact List.mem_cons_self c cs)
    · exact Or.inr (List.mem_cons_of_mem c h)

theorem twoSheetCandidates_from_master (price_list : List TsPriceRow)
    (origin_mapping : List TsOriginRow) (obr_master : List OBRMaster) :
    ∀ r ∈ twoSheetCandidates price_list origin_mapping obr_master,
      ∃ v ∈ obr_master, v.destiny_code.isPrefixOf r.country_code = true := by
  intro r hr
  simp only [twoSheetCandidates, List.mem_flatMap, List.mem_map,
    List.mem_filter] at hr
  obtain ⟨v, hv, price_item, _, origin, ⟨⟨_, hpre⟩, _⟩, hrec⟩ := hr
  exact ⟨v, hv, by rw [← hrec]; exact hpre⟩

theorem oteglobeCandidates_from_master (price_list : List OtPriceRow)
    (new_price_list : List OtNewPriceRow) (origins : List OtOriginRow)
    (obr_master : List OBRMaster) :
    ∀ r ∈ oteglobeCandidates price_list new_price_list origins obr_master,
      ∃ v ∈ obr_master, v.destiny_code.isPrefixOf r.country_code = true := by
  intro r hr
  simp only [oteglobeCandidates, List.mem_flatMap, List.mem_map,
    List.mem_filter] at hr
  obtain ⟨v, hv, item, ⟨_, hpre⟩, hrec⟩ := hr
  exact ⟨v, hv, by rw [← hrec]; exact hpre⟩

/-- Fixture: a two-sheet vendor price row. -/
def tsPriceEx : TsPriceRow :=
  { origin := "France".toList, destination := "France Mobile".toList, rate := 1 }

/-- Fixture: a two-sheet vendor origin-mapping row. -/
def tsOriginEx : TsOriginRow :=
  { dialed_digit := "33".toList, origin_name := "France".toList }

/-- Fixture: an Oteglobe price row. -/
def otPriceEx : OtPriceRow :=
  { dial_code := "49".toList, destination := "Germany".toList, rate := 1 }

/-- C3 counterexample: with no master records, a vendor price row (which
then matches no master record) does not appear in either strategy's output
at all — no fallback record with empty origin label is emitted. -/
theorem C3_counterexample_no_fallback :
    (¬ ∃ r ∈ twoSheetGenericCompare [tsPriceEx] [tsOriginEx] [],
        r.destinations = tsPriceEx.destination)
    ∧ (¬ ∃ r ∈ oteglobeCompare [otPriceEx] [] [] [],
        r.destinations = otPriceEx.destination) := by decide

/-- C3 amended: `OteglobeComparisonStrategy.compare` and
`TwoSheetGenericComparisonStrategy.compare` have no fallback pass: vendor
rows that match no master record do not appear in the output at all.  With
no master records the output is empty, and every output record's dial code
descends from some master record whose `destiny_code` is a prefix of it
(the records carry no origin label field at all). -/
theorem C3_amended_no_fallback_rows :
    (∀ (price_list : List TsPriceRow) (origin_mapping : List TsOriginRow),
      twoSheetGenericCompare price_list origin_mapping [] = [])
    ∧ (∀ (price_list : List OtPriceRow) (new_price_list : List OtNewPriceRow)
        (origins : List OtOriginRow),
      oteglobeCompare price_list new_price_list origins [] = [])
    ∧ (∀ (price_list : List TsPriceRow) (origin_mapping : List TsOriginRow)
        (obr_master : List OBRMaster),
      ∀ r ∈ twoSheetGenericCompare price_list origin_mapping obr_master,
        ∃ v ∈ obr_master, v.destiny_code.isPrefixOf r.country_code = true)
    ∧ (∀ (price_list : List OtPriceRow) (new_price_list : List OtNewPriceRow)
        (origins : List OtOriginRow) (obr_master : List OBRMaster),
      ∀ r ∈ oteglobeCompare price_list new_price_list origins obr_master,
        ∃ v ∈ obr_master, v.destiny_code.isPrefixOf r.country_code = true) := by
  refine ⟨fun _ _ => rfl, fun _ _ _ => rfl, ?_, ?_⟩
  · intro price_list origin_mapping obr_master r hr
    rcases dedupFoldFrom_subset _ ([], []) r hr with h | h
    · exact absurd h (List.not_mem_nil r)
    · exact twoSheetCandidates_from_master price_list origin_mapping obr_master r h
  · intro price_list new_price_list origins obr_master r hr
    rcases dedupFoldFrom_subset _ ([], []) r hr with h | h
    · exact absurd h (List.not_mem_nil r)
    · exact oteglobeCandidates_from_master price_list new_price_list origins
        obr_master r h

/-- One Arelion price-list row. -/
structure ArPriceRow where
  dial_code : PyStr
  destination : PyStr
  rate : ℚ
  effective_date : PyStr
deriving DecidableEq

/-- One Arelion new-price row. -/
structure ArNewPriceRow where
  origin : PyStr
  destination : PyStr
  dial_code : PyStr
  rate : ℚ
  effective_date : PyStr
deriving DecidableEq

/-- One Arelion origins row. -/
structure ArOriginRow where
  dial_code : PyStr
  origin : PyStr
deriving DecidableEq

/-- The final pass of `_compare_arelion_data` (obr_service.py:2098-2111):
append each price row whose dial code was not seen, sharing the
`unique_dial_codes` set (empty when the matched pass emitted nothing). -/
def arelionFinal (price_list : List ArPriceRow) : List CsvRecord :=
  (price_list.foldl (fun st price_item =>
    if price_item.dial_code ∈ st.1 then st
    else (price_item.dial_code :: st.1,
      st.2 ++ [{ destinations := price_item.destination
                 country_code := price_item.dial_code
                 area_code := []
                 country_area := price_item.dial_code
                 price_min := price_item.rate
                 start_date := price_item.effective_date
                 origin_name := [] }])) ([], [])).2

/-- `OBRService._compare_arelion_data` (obr_service.py:1989-2114).  The
matched pass reads the name `allow_duplicates` (lines 2072, 2073, 2085,
2086), which is bound nowhere in this function (it is a parameter of
`_compare_oteglobe_data`, obr_service.py:1704), so Python raises `NameError`
the moment the matched pass reaches a price row: that is, as soon as some
master row for vendor "ARELION" has a price row whose destination contains
the master's `destiny` (case-insensitively).  `Except.error ()` models the
raised `NameError`. -/
def compareArelionData (price_list : List ArPriceRow)
    (new_price_list : List ArNewPriceRow) (origins : List ArOriginRow)
    (obr_master_data : List OBRMaster) : Except Unit (List CsvRecord) :=
  let arelion_master_data := obr_master_data.filter (fun vendor =>
    pyUpper vendor.vendor == "ARELION".toList)
  if arelion_master_data.any (fun vendor =>
      !(price_list.filter (fun price =>
        pyIn (pyUpper vendor.destiny) (pyUpper price.destination))).isEmpty) then
    Except.error ()
  else
    Except.ok (arelionFinal price_list)

/-- Fixture: an Arelion master record. -/
def arMasterEx : OBRMaster :=
  { vendor := "Arelion".toList
    origin_code := "1".toList
    destiny_code := "44".toList
    destiny := "UK".toList
    routing := "R1".toList
    origin := "X".toList }

/-- Fixture: an Arelion price row whose destination contains "UK". -/
def arPriceEx : ArPriceRow :=
  { dial_code := "44700".toList
    destination := "UK Mobile".toList
    rate := 1
    effective_date := "2024-01-01".toList }

/-- C5: `_compare_arelion_data` does NOT complete normally on every input:
with one "ARELION" master record whose destiny "UK" is contained in the one
price row's destination, the matched pass reaches the price row and raises
`NameError` because `allow_duplicates` is unbound.  Without master records
the same inputs complete normally, showing the failure comes from the
matched pass. -/
theorem C5_arelion_name_error :
    compareArelionData [arPriceEx] [] [] [arMasterEx] = Except.error ()
    ∧ compareArelionData [arPriceEx] [] [] []
      = Except.ok [{ destinations := "UK Mobile".toList
                     country_code := "44700".toList
                     area_code := []
                     country_area := "44700".toList
                     price_min := 1
                     start_date := "2024-01-01".toList
                     origin_name := [] }] := ⟨rfl, rfl⟩

/-- The state of `CacheManager` (cache.py:19-23): `_cache` and
`_cache_expiry`, each a dict embedded as a function to `Option`. -/
structure CacheState (V : Type) where
  cache : String → Option V
  expiry : String → Option ℚ

/-- A fresh `CacheManager`. -/
def cacheInit (V : Type) : CacheState V :=
  { cache := fun _ => none, expiry := fun _ => none }

/-- Dict update / deletion: set the entry at `k` to `v`. -/
def dictSet (f : String → Option β) (k : String) (v : Option β) :
    String → Option β :=
  fun q => if q = k then v else f q

/-- `CacheManager.get` (cache.py:25-42) at wall-clock time `now`: `None`
when the key is absent; when the expiry exists and `now` is strictly past
it, delete both entries and return `None`; otherwise return the value,
leaving the state unchanged. -/
def cacheGet (s : CacheState V) (key : String) (now : ℚ) :
    Option V × CacheState V :=
  match s.cache key with
  | none => (none, s)
  | some v =>
    match s.expiry key with
    | some exp =>
      if now > exp then
        (none, { cache := dictSet s.cache key none
                 expiry := dictSet s.expiry key none })
      else (some v, s)
    | none => (some v, s)

/-- `CacheManager.set` (cache.py:44-54) at wall-clock time `now`: store the
value and an expiry of `now + ttl_seconds` computed at write time. -/
def cacheSet (s : CacheState V) (key : String) (v : V) (now ttl_seconds : ℚ) :
    CacheState V :=
  { cache := dictSet s.cache key (some v)
    expiry := dictSet s.expiry key (some (now + ttl_seconds)) }

/-- `CacheManager.clear` (cache.py:56-69): with no key, clear both dicts;
with a key present in `_cache`, delete it from both; otherwise no-op. -/
def cacheClear (s : CacheState V) (key : Option String) : CacheState V :=
  match key with
  | none => cacheInit V
  | some k =>
    match s.cache k with
    | some _ =>
      { cache := dictSet s.cache k none
        expiry := dictSet s.expiry k none }
    | none => s

/-- The constant cache key of `_get_obr_master_data_cached`. -/
def obrCacheKey : String := "obr_master_data"

/-- `OBRService._get_obr_master_data_cached` (obr_service.py:638-657) at
wall-clock time `now`: on a cache hit return the cached list with no
repository fetch; on a miss fetch `repo_data` from the repository (fetch
count 1) and store it with the configured TTL. -/
def getObrMasterDataCached (s : CacheState (List OBRMaster))
    (now ttl_seconds : ℚ) (repo_data : List OBRMaster) :
    List OBRMaster × CacheState (List OBRMaster) × Nat :=
  match cacheGet s obrCacheKey now with
  | (some cached_data, s') => (cached_data, s', 0)
  | (none, s') => (repo_data, cacheSet s' obrCacheKey repo_data now ttl_seconds, 1)

/-- C6: after `set(key, v, ttl)` at time `t`, a `get(key)` at any time not
after `t + ttl` returns `v` and leaves the state unchanged (so the expiry
instant, computed at write time, is unaffected by intervening reads, and no
data-source round trip happens); a `get(key)` strictly after `t + ttl`
returns `None` and removes both entries.  Consequently, starting from a
state with no cached master data, `_get_obr_master_data_cached` fetches
once, a second call within the TTL window returns the same stored list with
no further fetch and no state change, and a call strictly after expiry
fetches exactly once more. -/
theorem C6_cache_ttl (V : Type) (s : CacheState V) (key : String) (v : V)
    (t ttl t1 t2 : ℚ) (s0 : CacheState (List OBRMaster))
    (repo repo2 : List OBRMaster)
    (h1 : t1 ≤ t + ttl) (h2 : t2 > t + ttl)
    (h0 : s0.cache obrCacheKey = none) :
    (cacheGet (cacheSet s key v t ttl) key t1 = (some v, cacheSet s key v t ttl))
    ∧ ((cacheGet (cacheSet s key v t ttl) key t2).1 = none
       ∧ ((cacheGet (cacheSet s key v t ttl) key t2).2).cache key = none
       ∧ ((cacheGet (cacheSet s key v t ttl) key t2).2).expiry key = none)
    ∧ ((getObrMasterDataCached s0 t ttl repo).1 = repo
       ∧ (getObrMasterDataCached s0 t ttl repo).2.2 = 1)
    ∧ (getObrMasterDataCached (getObrMasterDataCached s0 t ttl repo).2.1
          t1 ttl repo2
        = (repo, (getObrMasterDataCached s0 t ttl repo).2.1, 0))
    ∧ ((getObrMasterDataCached (getObrMasterDataCached s0 t ttl repo).2.1
          t2 ttl repo2).1 = repo2
       ∧ (getObrMasterDataCached (getObrMasterDataCached s0 t ttl repo).2.1
          t2 ttl repo2).2.2 = 1) := by
  have hcache : ∀ (W : Type) (k : String) (s' : CacheState W) (w : W),
      (cacheSet s' k w t ttl).cache k = some w := by
    intro W k s' w
    simp [cacheSet, dictSet]
  have hexp : ∀ (W : Type) (k : String) (s' : CacheState W) (w : W),
      (cacheSet s' k w t ttl).expiry k = some (t + ttl) := by
    intro W k s' w
    simp [cacheSet, dictSet]
  have hget1 : ∀ (W : Type) (k : String) (s' : CacheState W) (w : W),
      cacheGet (cacheSet s' k w t ttl) k t1
        = (some w, cacheSet s' k w t ttl) := by
    intro W k s' w
    unfold cacheGet
    rw [hcache W k s' w, hexp W k s' w]
    dsimp only
    rw [if_neg (not_lt.mpr h1)]
  have hget2 : ∀ (W : Type) (k : String) (s' : CacheState W) (w : W),
      cacheGet (cacheSet s' k w t ttl) k t2
        = (none, { cache := dictSet (cacheSet s' k w t ttl).cache k none
                   expiry := dictSet (cacheSet s' k w t ttl).expiry k none }) := by
    intro W k s' w
    unfold cacheGet
    rw [hcache W k s' w, hexp W k s' w]
    dsimp only
    rw [if_pos h2]
  have hmiss : cacheGet s0 obrCacheKey t = (none, s0) := by
    unfold cacheGet
    rw [h0]
  have hfirst : getObrMasterDataCached s0 t ttl repo
      = (repo, cacheSet s0 obrCacheKey repo t ttl, 1) := by
    unfold getObrMasterDataCached
    rw [hmiss]
  refine ⟨hget1 V key s v, ?_, ?_, ?_, ?_⟩
  · rw [hget2 V key s v]
    exact ⟨rfl, by simp [dictSet], by simp [dictSet]⟩
  · rw [hfirst]
    exact ⟨rfl, rfl⟩
  · rw [hfirst]
    unfold getObrMasterDataCached
    dsimp only
    rw [hget1 (List OBRMaster) obrCacheKey s0 repo]
  · rw [hfirst]
    unfold getObrMasterDataCached
    dsimp only
    rw [hget2 (List OBRMaster) obrCacheKey s0 repo]
    exact ⟨rfl, rfl⟩

/-- Fixture: an empty master-data cache state. -/
def cacheEmptyMaster : CacheState (List OBRMaster) := cacheInit (List OBRMaster)

theorem C6_cache_ttl_witness :
    (cacheGet (cacheSet (cacheInit ℕ) "k" 7 0 30) "k" 30
      = (some 7, cacheSet (cacheInit ℕ) "k" 7 0 30))
    ∧ ((cacheGet (cacheSet (cacheInit ℕ) "k" 7 0 30) "k" 31).1 = none
       ∧ ((cacheGet (cacheSet (cacheInit ℕ) "k" 7 0 30) "k" 31).2).cache "k" = none
       ∧ ((cacheGet (cacheSet (cacheInit ℕ) "k" 7 0 30) "k" 31).2).expiry "k" = none)
    ∧ ((getObrMasterDataCached cacheEmptyMaster 0 30 [obrMasterBelgacom]).1
        = [obrMasterBelgacom]
       ∧ (getObrMasterDataCached cacheEmptyMaster 0 30 [obrMasterBelgacom]).2.2 = 1)
    ∧ (getObrMasterDataCached
        (getObrMasterDataCached cacheEmptyMaster 0 30 [obrMasterBelgacom]).2.1
        30 30 []
        = ([obrMasterBelgacom],
           (getObrMasterDataCached cacheEmptyMaster 0 30 [obrMasterBelgacom]).2.1, 0))
    ∧ ((getObrMasterDataCached
        (getObrMasterDataCached cacheEmptyMaster 0 30 [obrMasterBelgacom]).2.1
        31 30 []).1 = []
       ∧ (getObrMasterDataCached
        (getObrMasterDataCached cacheEmptyMaster 0 30 [obrMasterBelgacom]).2.1
        31 30 []).2.2 = 1) :=
  C6_cache_ttl ℕ (cacheInit ℕ) "k" 7 0 30 30 31 cacheEmptyMaster
    [obrMasterBelgacom] [] (by norm_num) (by norm_num) rfl

/-- One public `CacheManager` operation, with its wall-clock instant. -/
inductive CacheOp (V : Type) where
  | get (key : String) (now : ℚ)
  | set (key : String) (v : V) (now ttl_seconds : ℚ)
  | clear (key : Option String)

/-- The state after one `CacheManager` operation. -/
def cacheStep (s : CacheState V) : CacheOp V → CacheState V
  | CacheOp.get key now => (cacheGet s key now).2
  | CacheOp.set key v now ttl_seconds => cacheSet s key v now ttl_seconds
  | CacheOp.clear key => cacheClear s key

/-- The state after a sequence of `CacheManager` operations. -/
def cacheRun (s : CacheState V) : List (CacheOp V) → CacheState V
  | [] => s
  | op :: ops => cacheRun (cacheStep s op) ops

/-- The `CacheManager` invariant: `_cache` and `_cache_expiry` hold exactly
the same keys. -/
def cacheKeysAligned (s : CacheState V) : Prop :=
  ∀ k, (s.cache k).isSome ↔ (s.expiry k).isSome

theorem cacheStep_aligned (s : CacheState V) (op : CacheOp V)
    (h : cacheKeysAligned s) : cacheKeysAligned (cacheStep s op) := by
  cases op with
  | get key now =>
    show cacheKeysAligned (cacheGet s key now).2
    unfold cacheGet
    cases hc : s.cache key with
    | none => exact h
    | some v =>
      cases he : s.expiry key with
      | none => exact h
      | some exp =>
        dsimp only
        by_cases hlt : now > exp
        · rw [if_pos hlt]
          intro k
          dsimp only [dictSet]
          by_cases hk : k = key
          · simp [hk]
          · simp only [if_neg hk]
            exact h k
        · rw [if_neg hlt]
          exact h
  | set key v now ttl_seconds =>
    intro k
    show ((cacheSet s key v now ttl_seconds).cache k).isSome
      ↔ ((cacheSet s key v now ttl_seconds).expiry k).isSome
    unfold cacheSet dictSet
    by_cases hk : k = key
    · simp [hk]
    · simp only [if_neg hk]
      exact h k
  | clear key =>
    show cacheKeysAligned (cacheClear s key)
    unfold cacheClear
    cases key with
    | none => intro k; simp [cacheInit]
    | some q =>
      dsimp only
      cases hc : s.cache q with
      | none => exact h
      | some v =>
        intro k
        dsimp only [dictSet]
        by_cases hk : k = q
        · simp [hk]
        · simp only [if_neg hk]
          exact h k

theorem cacheRun_aligned (ops : List (CacheOp V)) :
    ∀ s : CacheState V, cacheKeysAligned s → cacheKeysAligned (cacheRun s ops) := by
  induction ops with
  | nil => exact fun s h => h
  | cons op ops ih => exact fun s h => ih (cacheStep s op) (cacheStep_aligned s op h)

/-- C10: after any finite sequence of `get`/`set`/`clear` operations starting
from a fresh `CacheManager`, the key set of `_cache` equals the key set of
`_cache_expiry` — no value entry ever exists without an expiry entry and
vice versa. -/
theorem C10_cache_expiry_keys_aligned (V : Type) (ops : List (CacheOp V)) :
    cacheKeysAligned (cacheRun (cacheInit V) ops) :=
  cacheRun_aligned ops (cacheInit V) (fun k => by simp [cacheInit])

/-- Python string `<=`: lexicographic comparison by code point. -/
def strLe : PyStr → PyStr → Bool
  | [], _ => true
  | _ :: _, [] => false
  | x :: xs, y :: ys =>
    if x.toNat < y.toNat then true
    else if y.toNat < x.toNat then false
    else strLe xs ys

theorem strLe_total : ∀ (a b : PyStr), (strLe a b || strLe b a) = true := by
  intro a
  induction a with
  | nil => intro b; simp [strLe]
  | cons x xs ih =>
    intro b
    cases b with
    | nil => simp [strLe]
    | cons y ys =>
      simp only [strLe]
      by_cases h1 : x.toNat < y.toNat
      · simp [h1]
      · by_cases h2 : y.toNat < x.toNat
        · simp [h1, h2]
        · simp [h1, h2, ih ys]

theorem strLe_antisymm : ∀ (a b : PyStr),
    strLe a b = true → strLe b a = true → a = b := by
  intro a
  induction a with
  | nil =>
    intro b _ hba
    cases b with
    | nil => rfl
    | cons y ys => simp [strLe] at hba
  | cons x xs ih =>
    intro b hab hba
    cases b with
    | nil => simp [strLe] at hab
    | cons y ys =>
      simp only [strLe] at hab hba
      by_cases h1 : x.toNat < y.toNat
      · simp [h1, Nat.lt_asymm h1, Nat.ne_of_lt h1] at hba
      · by_cases h2 : y.toNat < x.toNat
        · simp [h1, h2] at hab
        · simp only [h1, h2, if_false] at hab hba
          have hn : x.toNat = y.toNat := by omega
          have hx : x = y := by
            rw [← Char.ofNat_toNat x, ← Char.ofNat_toNat y, hn]
          rw [hx, ih ys hab hba]

theorem strLe_trans : ∀ (a b c : PyStr),
    strLe a b = true → strLe b c = true → strLe a c = true := by
  intro a
  induction a with
  | nil => intro b c _ _; rfl
  | cons x xs ih =>
    intro b c hab hbc
    cases b with
    | nil => simp [strLe] at hab
    | cons y ys =>
      cases c with
      | nil => simp [strLe] at hbc
      | cons z zs =>
        simp only [strLe] at hab hbc ⊢
        by_cases hxy : x.toNat < y.toNat
        · by_cases hyz : y.toNat < z.toNat
          · simp [Nat.lt_trans hxy hyz]
          · by_cases hzy : z.toNat < y.toNat
            · simp [hyz, hzy] at hbc
            · have hxz : x.toNat < z.toNat := by omega
              simp [hxz]
        · by_cases hyx : y.toNat < x.toNat
          · simp [hxy, hyx] at hab
          · simp only [hxy, hyx, if_false] at hab
            by_cases hyz : y.toNat < z.toNat
            · have hxz : x.toNat < z.toNat := by omega
              simp [hxz]
            · by_cases hzy : z.toNat < y.toNat
              · simp [hyz, hzy] at hbc
              · simp only [hyz, hzy, if_false] at hbc
                have hxz1 : ¬ x.toNat < z.toNat := by omega
                have hxz2 : ¬ z.toNat < x.toNat := by omega
                simp only [hxz1, hxz2, if_false]
                exact ih ys zs hab hbc

/-- The sort key of `_generate_csv_file` (obr_service.py:2413-2420): the
Python tuple order on `(country_area, destinations, origin_name)` — and
`country_area` is exactly the value written to the CSV's "Dial codes"
column (obr_service.py:2449-2455). -/
def csvSortKeyLe (a b : CsvRecord) : Bool :=
  if a.country_area = b.country_area then
    if a.destinations = b.destinations then strLe a.origin_name b.origin_name
    else strLe a.destinations b.destinations
  else strLe a.country_area b.country_area

theorem csvSortKeyLe_total (a b : CsvRecord) :
    (csvSortKeyLe a b || csvSortKeyLe b a) = true := by
  unfold csvSortKeyLe
  by_cases h1 : a.country_area = b.country_area
  · have h1s : b.country_area = a.country_area := h1.symm
    rw [if_pos h1, if_pos h1s]
    by_cases h2 : a.destinations = b.destinations
    · have h2s : b.destinations = a.destinations := h2.symm
      rw [if_pos h2, if_pos h2s]
      exact strLe_total _ _
    · have h2s : ¬ b.destinations = a.destinations := fun h => h2 h.symm
      rw [if_neg h2, if_neg h2s]
      exact strLe_total _ _
  · have h1s : ¬ b.country_area = a.country_area := fun h => h1 h.symm
    rw [if_neg h1, if_neg h1s]
    exact strLe_total _ _

theorem csvSortKeyLe_trans (a b c : CsvRecord)
    (hab : csvSortKeyLe a b = true) (hbc : csvSortKeyLe b c = true) :
    csvSortKeyLe a c = true := by
  unfold csvSortKeyLe at hab hbc ⊢
  by_cases h1 : a.country_area = b.country_area
  · rw [h1] at hab ⊢
    by_cases h2 : b.country_area = c.country_area
    · rw [h2] at hab hbc ⊢
      simp only [if_pos rfl] at hab hbc ⊢
      by_cases h3 : a.destinations = b.destinations
      · rw [h3] at hab ⊢
        by_cases h4 : b.destinations = c.destinations
        · rw [h4] at hab hbc ⊢
          simp only [if_pos rfl] at hab hbc ⊢
          exact strLe_trans _ _ _ hab hbc
        · rw [if_neg h4] at hbc ⊢
          exact hbc
      · rw [if_neg h3] at hab
        by_cases h4 : b.destinations = c.destinations
        · rw [← h4, if_neg h3]
          exact hab
        · by_cases h5 : a.destinations = c.destinations
          · rw [if_neg h4] at hbc
            rw [← h5] at hbc
            exact absurd (strLe_antisymm _ _ hab hbc) h3
          · rw [if_neg h5]
            rw [if_neg h4] at hbc
            exact strLe_trans _ _ _ hab hbc
    · rw [if_neg h2] at hbc
      rw [if_neg h2]
      exact hbc
  · rw [if_neg h1] at hab
    by_cases h2 : b.country_area = c.country_area
    · rw [← h2, if_neg h1]
      exact hab
    · rw [if_neg h2] at hbc
      by_cases h5 : a.country_area = c.country_area
      · rw [← h5] at hbc
        exact absurd (strLe_antisymm _ _ hab hbc) h1
      · rw [if_neg h5]
        exact strLe_trans _ _ _ hab hbc

/-- The sort of `_generate_csv_file` (obr_service.py:2413-2420): Python's
stable `sorted` by key `(country_area, destinations, origin_name)`, applied
to the list a comparison handed over, before the rows are written. -/
def generateCsvSorted (csv_data : List CsvRecord) : List CsvRecord :=
  csv_data.mergeSort csvSortKeyLe

/-- The order the claim asserts on strategy outputs:
`(dial_code, destination, origin_label)`, which on these records is
`(country_code, destinations, origin_name)`. -/
def claimedRowLe (a b : CsvRecord) : Bool :=
  if a.country_code = b.country_code then
    if a.destinations = b.destinations then strLe a.origin_name b.origin_name
    else strLe a.destinations b.destinations
  else strLe a.country_code b.country_code

/-- Fixture: a price row with dial code 2 (listed before dial code 1). -/
def bgPriceCode2 : BgPriceRow :=
  { destinations := "B Land".toList
    country_code := "2".toList
    area_code := []
    country_area := "2".toList
    price_min := 1
    start_date := "2024-01-01".toList }

/-- Fixture: a price row with dial code 1. -/
def bgPriceCode1 : BgPriceRow :=
  { destinations := "A Land".toList
    country_code := "1".toList
    area_code := []
    country_area := "1".toList
    price_min := 1
    start_date := "2024-01-01".toList }

/-- C7 counterexample: the list `_compare_belgacom_data` hands to the output
step is NOT sorted by `(dial_code, destination, origin_label)`: with no
master rows and price rows listed with dial code "2" before "1", the
returned list keeps that order. -/
theorem C7_counterexample_unsorted_handoff :
    ¬ List.Pairwise (fun a b => claimedRowLe a b = true)
      (compareBelgacomData [bgPriceCode2, bgPriceCode1] [] []) := by decide

/-- C7 amended: comparison methods hand over unsorted lists; it is
`_generate_csv_file` itself that sorts the rows — by
`(country_area, destinations, origin_name)`, where `country_area` is the
value written to the CSV's dial-codes column — so the data rows written to
the CSV appear in nondecreasing lexicographic order of that key, as a
permutation of the input, identically for any two runs on identical
inputs. -/
theorem C7_amended_csv_rows_sorted (csv_data : List CsvRecord) :
    List.Pairwise (fun a b => csvSortKeyLe a b = true)
      (generateCsvSorted csv_data)
    ∧ (generateCsvSorted csv_data).Perm csv_data :=
  ⟨List.sorted_mergeSort csvSortKeyLe_trans csvSortKeyLe_total csv_data,
   List.mergeSort_perm csv_data csvSortKeyLe⟩

/-- One Sunrise price-list row. -/
structure SunPriceRow where
  origin_set : PyStr
  origin : PyStr
  destination : PyStr
  dial_codes : PyStr
  rate : ℚ
  effective_date : PyStr
deriving DecidableEq

/-- One HGC price-list row. -/
structure HgcPriceRow where
  dial_code : PyStr
  destination : PyStr
  routing : PyStr
  rate : ℚ
  effective_date : PyStr
deriving DecidableEq

/-- The Sunrise same-dial-code maximum (obr_service.py:901-923): among the
matching prices sharing the current item's `dial_codes` field, Python's
`max(..., key=rate)`; `none` when no row shares it. -/
def sunriseSameDialCodeMax (matching_prices : List SunPriceRow)
    (price_item : SunPriceRow) : Option SunPriceRow :=
  match matching_prices.filter
      (fun p => p.dial_codes == price_item.dial_codes) with
  | [] => none
  | x :: xs => some (pyMaxBy (fun p => p.rate) x xs)

/-- The HGC per-dial-code selection (obr_service.py:1614-1616): the rows of
`price_list` grouped under `dial_code`, reduced by Python's
`max(..., key=rate)`. -/
def hgcSelect (price_list : List HgcPriceRow) (dial_code : PyStr) :
    Option HgcPriceRow :=
  match price_list.filter (fun p => p.dial_code == dial_code) with
  | [] => none
  | x :: xs => some (pyMaxBy (fun p => p.rate) x xs)

/-- Keys of a Python dict built by grouping, in first-occurrence order. -/
def firstOccurrences : List PyStr → List PyStr
  | [] => []
  | k :: rest => k :: firstOccurrences (rest.filter (fun q => !(q == k)))
termination_by l => l.length
decreasing_by
  exact Nat.lt_succ_of_le (List.length_filter_le _ rest)

/-- The HGC final per-dial-code grouping pass (obr_service.py:1606-1628):
group `price_list` by `dial_code` (dict insertion order), pick the
highest-rate row of each group, and emit it unless its destination or
effective date is empty. -/
def hgcFinalGrouping (price_list : List HgcPriceRow) : List CsvRecord :=
  (firstOccurrences (price_list.map (fun p => p.dial_code))).filterMap
    (fun dial_code =>
      (hgcSelect price_list dial_code).bind (fun max_price_item =>
        if !max_price_item.destination.isEmpty
            && !max_price_item.effective_date.isEmpty then
          some { destinations := max_price_item.destination
                 country_code := max_price_item.dial_code
                 area_code := []
                 country_area := max_price_item.dial_code
                 price_min := max_price_item.rate
                 start_date := max_price_item.effective_date
                 origin_name := [] }
        else none))

/-- `m` is the first element of `g` attaining the maximal value of `f`:
everything before it is strictly smaller, everything after it no larger. -/
def firstMaxOf (g : List α) (f : α → ℚ) (m : α) : Prop :=
  ∃ l₁ l₂, g = l₁ ++ m :: l₂ ∧ (∀ y ∈ l₁, f y < f m) ∧ (∀ y ∈ l₂, f y ≤ f m)

theorem pyMaxBy_firstMaxOf (f : α → ℚ) (x : α) (xs : List α) :
    firstMaxOf (x :: xs) f (pyMaxBy f x xs) :=
  pyMaxBy_spec f x xs

/-- C8: every "pick highest price" selection picks the first candidate in
input order attaining the maximal rate — the comparison is strict and
first-seen wins on exact ties: this holds for the Sunrise same-dial-code
maximum, for the HGC per-dial-code selection, and for every record the HGC
final grouping pass emits. -/
theorem C8_first_seen_wins_on_ties :
    (∀ (matching_prices : List SunPriceRow) (price_item m : SunPriceRow),
      sunriseSameDialCodeMax matching_prices price_item = some m →
      firstMaxOf (matching_prices.filter
          (fun p => p.dial_codes == price_item.dial_codes))
        (fun p => p.rate) m)
    ∧ (∀ (price_list : List HgcPriceRow) (dial_code : PyStr) (m : HgcPriceRow),
      hgcSelect price_list dial_code = some m →
      firstMaxOf (price_list.filter (fun p => p.dial_code == dial_code))
        (fun p => p.rate) m)
    ∧ (∀ (price_list : List HgcPriceRow), ∀ r ∈ hgcFinalGrouping price_list,
      ∃ m, hgcSelect price_list r.country_code = some m
        ∧ r.price_min = m.rate
        ∧ firstMaxOf (price_list.filter
            (fun p => p.dial_code == r.country_code)) (fun p => p.rate) m) := by
  have hsel : ∀ (price_list : List HgcPriceRow) (dial_code : PyStr)
      (m : HgcPriceRow), hgcSelect price_list dial_code = some m →
      firstMaxOf (price_list.filter (fun p => p.dial_code == dial_code))
        (fun p => p.rate) m := by
    intro price_list dial_code m hm
    unfold hgcSelect at hm
    cases hfil : price_list.filter (fun p => p.dial_code == dial_code) with
    | nil => rw [hfil] at hm; exact absurd hm (by simp)
    | cons x xs =>
      rw [hfil] at hm
      have hm' : pyMaxBy (fun p => p.rate) x xs = m := by
        simpa using hm
      rw [← hm']
      exact pyMaxBy_firstMaxOf _ x xs
  refine ⟨?_, hsel, ?_⟩
  · intro matching_prices price_item m hm
    unfold sunriseSameDialCodeMax at hm
    cases hfil : matching_prices.filter
        (fun p => p.dial_codes == price_item.dial_codes) with
    | nil => rw [hfil] at hm; exact absurd hm (by simp)
    | cons x xs =>
      rw [hfil] at hm
      have hm' : pyMaxBy (fun p => p.rate) x xs = m := by
        simpa using hm
      rw [← hm']
      exact pyMaxBy_firstMaxOf _ x xs
  · intro price_list r hr
    unfold hgcFinalGrouping at hr
    rw [List.mem_filterMap] at hr
    obtain ⟨dial_code, _, hbind⟩ := hr
    cases hs : hgcSelect price_list dial_code with
    | none => rw [hs] at hbind; exact absurd hbind (by simp)
    | some m =>
      rw [hs] at hbind
      rw [Option.some_bind] at hbind
      by_cases hne : (!m.destination.isEmpty && !m.effective_date.isEmpty) = true
      · rw [if_pos hne] at hbind
        have hrm : r = { destinations := m.destination
                         country_code := m.dial_code
                         area_code := []
                         country_area := m.dial_code
                         price_min := m.rate
                         start_date := m.effective_date
                         origin_name := [] } := by
          cases hbind
          rfl
        have hcode : r.country_code = m.dial_code := by rw [hrm]
        have hmkey : m.dial_code = dial_code := by
          unfold hgcSelect at hs
          cases hfil : price_list.filter (fun p => p.dial_code == dial_code) with
          | nil => rw [hfil] at hs; exact absurd hs (by simp)
          | cons x xs =>
            rw [hfil] at hs
            have hm' : pyMaxBy (fun p => p.rate) x xs = m := by simpa using hs
            have hmem : m ∈ x :: xs := hm' ▸ pyMaxBy_mem (fun p => p.rate) x xs
            rw [← hfil] at hmem
            have := (List.mem_filter.mp hmem).2
            exact eq_of_beq this
        refine ⟨m, ?_, ?_, ?_⟩
        · rw [hcode, hmkey]; exact hs
        · rw [hrm]
        · rw [hcode, hmkey]
          exact hsel price_list dial_code m hs
      · rw [if_neg hne] at hbind
        exact absurd hbind (by simp)
